import Mathlib

/-!
Verification development for the gene-identity reconciliation pipeline of the
spatialGRN repository (spagrn/benchmark/receptor_simulation.py).

The embedding models the functions get_dir and assign_gene_names_og and the
surrounding data model: pandas dataframes become lists of records, pandas
scalar cells become PyVal (an integer or a string, with astype(str) made
explicit), the ambient random generator of the random module becomes an
explicitly threaded Nat state, and Python exceptions become Option failure.
Python sets materialised into lists (list(set(x))) are determinised as
first-occurrence deduplication.
-/

namespace SpaGRN

/-- A Python scalar as it sits in a pandas column: an integer or a string.
The pandas operation astype(str) maps an integer cell to its decimal string
and leaves a string cell unchanged. -/
inductive PyVal where
  | pint : Int → PyVal
  | pstr : String → PyVal
deriving DecidableEq, Repr

/-- pandas astype(str) on one cell. -/
def PyVal.astype_str : PyVal → PyVal
  | .pint n => .pstr (toString n)
  | .pstr s => .pstr s

/-- True when the value is a string cell. -/
def PyVal.isStr : PyVal → Bool
  | .pint _ => false
  | .pstr _ => true

/-- One row of the regulatory ground-truth table grn_gt, with columns
regulator.gene, regulated.gene and regulator.effect. Effects are modelled
as rationals. -/
structure GRNRecord where
  regulator : PyVal
  regulated : PyVal
  effect : Rat
deriving DecidableEq, Repr

/-- One row of the ligand-receptor ground-truth table lr_gt. -/
structure LRRecord where
  ligand : PyVal
  receptor : PyVal
deriving DecidableEq, Repr

/-- The ranking catalog (the feather table rdb): one string column named
motifs and one integer rank column per candidate gene name. The motifs
column is kept apart from the gene columns; RDB.columns recovers the full
pandas column list, with the motifs label among it. Each row pairs a motifs
value with the rank cells aligned with gene_cols. -/
structure RDB where
  gene_cols : List String
  rows : List (String × List Int)
deriving DecidableEq, Repr

/-- The full pandas column list of the catalog, motifs label included. -/
def RDB.columns (r : RDB) : List String := "motifs" :: r.gene_cols

/-- Python dict lookup (raises KeyError when absent, hence Option). -/
def dictGet [DecidableEq α] : List (α × β) → α → Option β
  | [], _ => none
  | (k, v) :: rest, key => if k = key then some v else dictGet rest key

/-- First-occurrence deduplication with an accumulator of already seen
elements; determinises Python set construction from a list. -/
def py_dedup_aux [DecidableEq α] : List α → List α → List α
  | [], _ => []
  | x :: xs, seen =>
    if x ∈ seen then py_dedup_aux xs seen else x :: py_dedup_aux xs (x :: seen)

/-- list(set(l)) determinised: keep the first occurrence of each element. -/
def py_dedup [DecidableEq α] (l : List α) : List α := py_dedup_aux l []

/-- Stable insertion of one element: x goes before the first y with le x y. -/
def insertBy (le : α → α → Bool) (x : α) : List α → List α
  | [] => [x]
  | y :: ys => if le x y then x :: y :: ys else y :: insertBy le x ys

/-- Stable insertion sort; with a total preorder le it keeps tied elements
in input order. -/
def sortBy (le : α → α → Bool) : List α → List α
  | [] => []
  | x :: xs => insertBy le x (sortBy le xs)

/-- sub.sort_values(by=value_key, ascending=False) on the record list: the
library sorts ascending and presents the reverse; the tie order of the
default quicksort kind is implementation-defined in the library and is
modelled here as the reverse of a stable ascending sort. -/
def sort_values_desc (l : List GRNRecord) : List GRNRecord :=
  (sortBy (fun a b => decide (a.effect ≤ b.effect)) l).reverse

/-- get_dir from the source, viewed as the lookup function of the dict it
builds: for a regulator, filter the ground truth to its records, sort by
effect descending, and list the regulated identifiers. A regulator with no
matching records yields the empty list. -/
def get_dir (gt : List GRNRecord) (reg : PyVal) : List PyVal :=
  (sort_values_desc (gt.filter (fun r => decide (r.regulator = reg)))).map
    GRNRecord.regulated

/-- Lines 324-325 of the source: select the catalog rows whose motifs cell
equals the motif, take the first such row (sub.index.values[0] raises
IndexError when there is none, hence Option), and sort the gene columns by
that row ascending by rank. -/
def motif_sorted_genes (rdb : RDB) (motif : String) : Option (List String) :=
  match rdb.rows.filter (fun p => decide (p.1 = motif)) with
  | [] => none
  | (_, ranks) :: _ =>
    some ((sortBy (fun a b => decide (a.2 ≤ b.2)) (rdb.gene_cols.zip ranks)).map
      (fun p => p.1))

/-- Lines 329-333 of the source, the inner loop of the target phase:
for tg in sorted columns, append tg when it is not yet in total_name, and
break as soon as total_name reaches the stop length. -/
def claim_loop (cols : List String) (tn : List String) (stop : Nat) : List String :=
  match cols with
  | [] => tn
  | tg :: rest =>
    if tg ∈ tn then
      if tn.length = stop then tn else claim_loop rest tn stop
    else
      if (tn ++ [tg]).length = stop then tn ++ [tg] else claim_loop rest (tn ++ [tg]) stop

/-- Output of the target phase: the two accumulator lists as the loop over
the TFs leaves them, plus per-TF ghost data (names claimed, top_num) used
only in statements. -/
structure TargetPhaseOut where
  total_name : List String
  total_id : List PyVal
  counts : List (Nat × Nat)
deriving DecidableEq, Repr

/-- Lines 320-333 of the source: for each TF in input order, resolve its
name (module-global dict tf_id_dir), its motif (tf_motif_dir), fetch and
sort the motif candidates, extend total_id by the regulated identifiers of
the TF in effect-descending order, and run the claiming loop on total_name.
Dict misses and an absent motif abort (KeyError and IndexError). -/
def target_phase (rdb : RDB) (tf_motif_dir : List (String × String))
    (tf_id_dir : List (PyVal × String)) (grn_gt : List GRNRecord) :
    List PyVal → List String → List PyVal → Option TargetPhaseOut
  | [], total_name, total_id => some ⟨total_name, total_id, []⟩
  | tf :: rest, total_name, total_id => do
    let tf_name ← dictGet tf_id_dir tf
    let one_motif ← dictGet tf_motif_dir tf_name
    let cols ← motif_sorted_genes rdb one_motif
    let current_len := total_name.length
    let top_num := (get_dir grn_gt tf).length
    let total_id' := total_id ++ get_dir grn_gt tf
    let total_name' := claim_loop cols total_name (current_len + top_num)
    let out ← target_phase rdb tf_motif_dir tf_id_dir grn_gt rest total_name' total_id'
    some ⟨out.total_name, out.total_id,
      (total_name'.length - current_len, top_num) :: out.counts⟩

/-- pd.DataFrame of two equal-length columns; pandas raises ValueError when
the columns have different lengths. -/
def make_df (ids : List PyVal) (names : List String) : Option (List (PyVal × String)) :=
  if ids.length = names.length then some (ids.zip names) else none

/-- drop_duplicates(subset=id, keep=first) with an accumulator of seen ids. -/
def dd_by_id_aux : List (PyVal × String) → List PyVal → List (PyVal × String)
  | [], _ => []
  | (i, n) :: rest, seen =>
    if i ∈ seen then dd_by_id_aux rest seen
    else (i, n) :: dd_by_id_aux rest (i :: seen)

/-- drop_duplicates(subset=id, keep=first). -/
def dedup_by_id (l : List (PyVal × String)) : List (PyVal × String) :=
  dd_by_id_aux l []

/-- astype(str) applied to a whole (id, name) row; the name column is
already a string, so only the id cell changes. -/
def row_astype_str (p : PyVal × String) : PyVal × String := (p.1.astype_str, p.2)

/-- Lines 337-343 of the source: build the DataFrame of the accumulators,
drop duplicate ids keeping the first, apply astype(str), then drop the rows
whose id is in list(set(lr_gt.receptor)). Note that astype(str) has already
run when the isin filter compares ids, so a string-coerced id is compared
with the raw receptor values. -/
def name_df1_stage (lr_gt : List LRRecord) (ids : List PyVal) (names : List String) :
    Option (List (PyVal × String)) := do
  let df ← make_df ids names
  let df1 := (dedup_by_id df).map row_astype_str
  let receptors := py_dedup (lr_gt.map LRRecord.receptor)
  some (df1.filter (fun p => decide (p.1 ∉ receptors)))

/-- The character set that Python set(\x22motifs\x22) denotes: the six
one-character strings m, o, t, i, f, s. -/
def py_char_set (s : String) : List String :=
  py_dedup (s.data.map (fun c => String.mk [c]))

/-- Line 349 of the source: set(rdb.columns) - set(motifs-as-a-string); the
subtraction removes one-character column labels, not the motifs label. -/
def total_rdb_names (rdb : RDB) : List String :=
  (py_dedup rdb.columns).filter (fun c => decide (c ∉ py_char_set "motifs"))

/-- Line 350 of the source: the unused-name pool for the noise phase. -/
def rest_rdb_names (rdb : RDB) (total_name : List String) : List String :=
  (total_rdb_names rdb).filter (fun c => decide (c ∉ total_name))

/-- list(set(vocab) - set(total_name)) for the ligand and receptor phases. -/
def rest_names_from (vocab : List String) (total_name : List String) : List String :=
  (py_dedup vocab).filter (fun c => decide (c ∉ total_name))

/-- One step of a linear congruential generator modelling the ambient state
of the random module. -/
def lcg_next (g : Nat) : Nat := (g * 1103515245 + 12345) % 4294967296

/-- random.sample(l, k) over a duplicate-free population, modelled with the
explicit generator state g: pick the element at index g mod length, remove
it, and continue with the advanced state; raises ValueError (none) when the
population is exhausted before k draws. -/
def py_sample : Nat → Nat → List String → Option (List String × Nat)
  | 0, g, _ => some ([], g)
  | k + 1, g, l =>
    if h : l.length = 0 then none
    else
      let x := l.get ⟨g % l.length, Nat.mod_lt _ (Nat.pos_of_ne_zero h)⟩
      match py_sample k (lcg_next g) (l.erase x) with
      | none => none
      | some (xs, g') => some (x :: xs, g')

/-- Whether the final DataFrame has a fully duplicated row; the source ends
with assert name_df.duplicated().sum().sum() == 0. -/
def has_dup_row (l : List (PyVal × String)) : Bool := decide (¬ l.Nodup)

/-- Everything assign_gene_names_og leaves behind: the returned table, the
state of the caller-visible list arguments (the Python function mutates
total_name and total_id in place during the target phase and then rebinds
the local names, so the caller sees the end-of-target-phase state), the
final local accumulators before the last DataFrame, and the dataframe
arguments threaded through unchanged. -/
structure AssignResult where
  table : List (PyVal × String)
  caller_total_name : List String
  caller_total_id : List PyVal
  final_total_name : List String
  final_total_id : List PyVal
  rdb_out : RDB
  grn_gt_out : List GRNRecord
  lr_gt_out : List LRRecord
deriving DecidableEq, Repr

/-- Lines 305-386 of the source, assign_gene_names_og. The niche_from and
niche_to arguments are the from and to columns of the external
lr_network_mouse.csv vocabulary read at line 360; g is the ambient state of
the random module. Failure of any pandas or random operation yields none
(the Python exception propagates and no value is returned). -/
def assign_gene_names_og (tfs : List PyVal) (rdb : RDB)
    (tf_motif_dir : List (String × String)) (tf_id_dir : List (PyVal × String))
    (grn_gt : List GRNRecord) (lr_gt : List LRRecord)
    (total_name : List String) (total_id : List PyVal) (noise_ids : List PyVal)
    (niche_from : List String) (niche_to : List String) (g : Nat) :
    Option AssignResult := do
  let tp ← target_phase rdb tf_motif_dir tf_id_dir grn_gt tfs total_name total_id
  let df1 ← name_df1_stage lr_gt tp.total_id tp.total_name
  let total_name1 := df1.map Prod.snd
  let total_id1 := df1.map Prod.fst
  let (noise_names, g1) ← py_sample noise_ids.length g (rest_rdb_names rdb total_name1)
  let total_name2 := total_name1 ++ noise_names
  let total_id2 := total_id1 ++ noise_ids
  let ligand_ids := py_dedup (lr_gt.map LRRecord.ligand)
  let (ligand_names, g2) ← py_sample ligand_ids.length g1 (rest_names_from niche_from total_name2)
  let total_name3 := total_name2 ++ ligand_names
  let total_id3 := total_id2 ++ ligand_ids
  let receptor_ids := py_dedup (lr_gt.map LRRecord.receptor)
  let (receptor_names, _g3) ← py_sample receptor_ids.length g2 (rest_names_from niche_to total_name3)
  let total_name4 := total_name3 ++ receptor_names
  let total_id4 := total_id3 ++ receptor_ids
  let df ← make_df total_id4 total_name4
  let name_df := (dedup_by_id df).map row_astype_str
  if has_dup_row name_df then none
  else some ⟨name_df, tp.total_name, tp.total_id,
    total_name4, total_id4, rdb, grn_gt, lr_gt⟩

/-- Whether the script entry point reaches name_df.to_csv: the file is
written exactly when assign_gene_names_og returns a value. -/
def produced_output_file (tfs : List PyVal) (rdb : RDB)
    (tf_motif_dir : List (String × String)) (tf_id_dir : List (PyVal × String))
    (grn_gt : List GRNRecord) (lr_gt : List LRRecord)
    (total_name : List String) (total_id : List PyVal) (noise_ids : List PyVal)
    (niche_from : List String) (niche_to : List String) (g : Nat) : Bool :=
  (assign_gene_names_og tfs rdb tf_motif_dir tf_id_dir grn_gt lr_gt
    total_name total_id noise_ids niche_from niche_to g).isSome

/-- Lookup of the first row bound to an identifier in a name table. -/
def lookupId : List (PyVal × String) → PyVal → Option String
  | [], _ => none
  | (i, n) :: rest, k => if i = k then some n else lookupId rest k

/-! ### Concrete inputs used by the witnesses and counterexamples -/

/-- Witness input: the transcription-factor identifier list. -/
def W_tfs : List PyVal := [.pstr "T1"]

/-- Witness input: a ranking catalog with five gene columns and one motif. -/
def W_rdb : RDB := ⟨["nA", "nB", "nC", "nD", "nE"], [("M1", [1, 2, 3, 4, 5])]⟩

/-- Witness input: the TF-name to motif dict. -/
def W_tmd : List (String × String) := [("TN1", "M1")]

/-- Witness input: the TF-identifier to TF-name dict. -/
def W_tid : List (PyVal × String) := [(.pstr "T1", "TN1")]

/-- Witness input: two regulatory records for the single TF. -/
def W_grn : List GRNRecord :=
  [⟨.pstr "T1", .pstr "g1", (9 : Rat)⟩, ⟨.pstr "T1", .pstr "g2", (3 : Rat)⟩]

/-- Witness input: one ligand-receptor pair. -/
def W_lr : List LRRecord := [⟨.pstr "L1", .pstr "R1"⟩]

/-- Witness input: the caller-seeded name list. -/
def W_tn : List String := ["TN1"]

/-- Witness input: the caller-seeded identifier list. -/
def W_ti : List PyVal := [.pstr "T1"]

/-- Witness input: one noise identifier. -/
def W_noise : List PyVal := [.pstr "gene1"]

/-- Witness input: the ligand vocabulary column. -/
def W_from : List String := ["ligA", "ligB"]

/-- Witness input: the receptor vocabulary column. -/
def W_to : List String := ["recA", "recB"]

/-- The witness run with the ambient generator state g. -/
def W_run (g : Nat) : Option AssignResult :=
  assign_gene_names_og W_tfs W_rdb W_tmd W_tid W_grn W_lr W_tn W_ti W_noise
    W_from W_to g

/-- A default result record used only as a fallback in extractors. -/
def emptyResult : AssignResult := ⟨[], [], [], [], [], ⟨[], []⟩, [], []⟩

/-- The result of the witness run at generator state 0. -/
def W_res : AssignResult :=
  match W_run 0 with
  | some r => r
  | none => emptyResult

/-- The result of the witness run at generator state 1. -/
def W_res1 : AssignResult :=
  match W_run 1 with
  | some r => r
  | none => emptyResult

/-- The target-phase output of the witness run. -/
def W_tp : TargetPhaseOut :=
  ⟨["TN1", "nA", "nB"], [.pstr "T1", .pstr "g1", .pstr "g2"], [(2, 2)]⟩

/-- The first DataFrame of the witness run. -/
def W_df1 : List (PyVal × String) :=
  [(.pstr "T1", "TN1"), (.pstr "g1", "nA"), (.pstr "g2", "nB")]

/-- A catalog whose single motif row offers only one candidate name; with
the two regulated identifiers of W_grn this exhausts the candidates. -/
def E_rdb : RDB := ⟨["nA"], [("M1", [1])]⟩

/-- The target-phase output of the exhaustion run: one name claimed for two
regulated identifiers. -/
def E_tp : TargetPhaseOut :=
  ⟨["TN1", "nA"], [.pstr "T1", .pstr "g1", .pstr "g2"], [(1, 2)]⟩

/-- Five noise identifiers, more than the four names left in the pool of
W_rdb after the target phase. -/
def P_noise : List PyVal :=
  [.pstr "gene1", .pstr "gene2", .pstr "gene3", .pstr "gene4", .pstr "gene5"]

/-- Failing input for the receptor-filter defect: integer identifiers. -/
def F_tfs : List PyVal := [.pint 1]

/-- Catalog for the integer-identifier run. -/
def F_rdb : RDB := ⟨["nA"], [("M", [1])]⟩

/-- TF-name to motif dict for the integer-identifier run. -/
def F_tmd : List (String × String) := [("TN", "M")]

/-- TF-identifier to TF-name dict for the integer-identifier run. -/
def F_tid : List (PyVal × String) := [(.pint 1, "TN")]

/-- One regulatory record: TF 1 regulates gene 7. -/
def F_grn : List GRNRecord := [⟨.pint 1, .pint 7, (9 : Rat)⟩]

/-- One signaling pair: ligand 5, receptor 7; so identifier 7 is both a
regulatory target and a ground-truth receptor. -/
def F_lr : List LRRecord := [⟨.pint 5, .pint 7⟩]

/-! ### Basic lemmas about the list-level building blocks -/

theorem mem_py_dedup_aux [DecidableEq α] (l seen : List α) (a : α) :
    a ∈ py_dedup_aux l seen ↔ a ∈ l ∧ a ∉ seen := by
  induction l generalizing seen with
  | nil => simp [py_dedup_aux]
  | cons x xs ih =>
    by_cases hx : x ∈ seen
    · simp only [py_dedup_aux, if_pos hx, ih, List.mem_cons]
      constructor
      · rintro ⟨h1, h2⟩; exact ⟨Or.inr h1, h2⟩
      · rintro ⟨h1 | h1, h2⟩
        · subst h1; exact absurd hx h2
        · exact ⟨h1, h2⟩
    · simp only [py_dedup_aux, if_neg hx, List.mem_cons, ih]
      constructor
      · rintro (rfl | ⟨h1, h2⟩)
        · exact ⟨Or.inl rfl, hx⟩
        · exact ⟨Or.inr h1, fun hs => h2 (Or.inr hs)⟩
      · rintro ⟨rfl | h1, h2⟩
        · exact Or.inl rfl
        · by_cases hax : a = x
          · exact Or.inl hax
          · refine Or.inr ⟨h1, fun hs => ?_⟩
            rcases hs with h | h
            · exact hax h
            · exact h2 h

theorem mem_py_dedup [DecidableEq α] (l : List α) (a : α) :
    a ∈ py_dedup l ↔ a ∈ l := by
  simp [py_dedup, mem_py_dedup_aux]

theorem py_dedup_aux_nodup [DecidableEq α] (l seen : List α) :
    (py_dedup_aux l seen).Nodup := by
  induction l generalizing seen with
  | nil => simp [py_dedup_aux]
  | cons x xs ih =>
    by_cases hx : x ∈ seen
    · simpa [py_dedup_aux, if_pos hx] using ih seen
    · simp only [py_dedup_aux, if_neg hx, List.nodup_cons]
      refine ⟨fun hmem => ?_, ih (x :: seen)⟩
      exact ((mem_py_dedup_aux xs (x :: seen) x).mp hmem).2 (List.mem_cons_self x seen)

theorem py_dedup_nodup [DecidableEq α] (l : List α) : (py_dedup l).Nodup :=
  py_dedup_aux_nodup l []

theorem insertBy_perm (le : α → α → Bool) (x : α) (l : List α) :
    (insertBy le x l).Perm (x :: l) := by
  induction l with
  | nil => simp [insertBy]
  | cons y ys ih =>
    by_cases h : le x y
    · simp [insertBy, h]
    · simp only [insertBy, if_neg h]
      exact ((ih.cons y).trans (List.Perm.swap x y ys))

theorem sortBy_perm (le : α → α → Bool) (l : List α) : (sortBy le l).Perm l := by
  induction l with
  | nil => simp [sortBy]
  | cons x xs ih => exact (insertBy_perm le x (sortBy le xs)).trans (ih.cons x)

theorem mem_sortBy (le : α → α → Bool) (l : List α) (a : α) :
    a ∈ sortBy le l ↔ a ∈ l :=
  (sortBy_perm le l).mem_iff

theorem mem_get_dir (gt : List GRNRecord) (reg x : PyVal) :
    x ∈ get_dir gt reg ↔ ∃ r ∈ gt, r.regulator = reg ∧ r.regulated = x := by
  simp only [get_dir, sort_values_desc, List.mem_map, List.mem_reverse, mem_sortBy,
    List.mem_filter, decide_eq_true_eq]
  constructor
  · rintro ⟨r, ⟨hr, hreg⟩, rfl⟩; exact ⟨r, hr, hreg, rfl⟩
  · rintro ⟨r, hr, hreg, rfl⟩; exact ⟨r, ⟨hr, hreg⟩, rfl⟩

theorem claim_loop_cons (tg : String) (rest tn : List String) (stop : Nat) :
    claim_loop (tg :: rest) tn stop =
      if tg ∈ tn then
        if tn.length = stop then tn else claim_loop rest tn stop
      else
        if (tn ++ [tg]).length = stop then tn ++ [tg]
        else claim_loop rest (tn ++ [tg]) stop := rfl

theorem claim_loop_append (cols tn : List String) (stop : Nat) :
    ∃ ext, claim_loop cols tn stop = tn ++ ext := by
  induction cols generalizing tn with
  | nil => exact ⟨[], by simp [claim_loop]⟩
  | cons tg rest ih =>
    rw [claim_loop_cons]
    by_cases hmem : tg ∈ tn
    · rw [if_pos hmem]
      by_cases hstop : tn.length = stop
      · exact ⟨[], by rw [if_pos hstop]; simp⟩
      · obtain ⟨ext, hext⟩ := ih tn
        exact ⟨ext, by rw [if_neg hstop]; exact hext⟩
    · rw [if_neg hmem]
      by_cases hstop : (tn ++ [tg]).length = stop
      · exact ⟨[tg], by rw [if_pos hstop]⟩
      · obtain ⟨ext, hext⟩ := ih (tn ++ [tg])
        refine ⟨[tg] ++ ext, ?_⟩
        rw [if_neg hstop, hext, List.append_assoc]

theorem claim_loop_nodup (cols tn : List String) (stop : Nat) (h : tn.Nodup) :
    (claim_loop cols tn stop).Nodup := by
  induction cols generalizing tn with
  | nil => simpa [claim_loop] using h
  | cons tg rest ih =>
    rw [claim_loop_cons]
    by_cases hmem : tg ∈ tn
    · rw [if_pos hmem]
      by_cases hstop : tn.length = stop
      · rw [if_pos hstop]; exact h
      · rw [if_neg hstop]; exact ih tn h
    · rw [if_neg hmem]
      have h' : (tn ++ [tg]).Nodup := by
        simp [List.nodup_append, h, hmem]
      by_cases hstop : (tn ++ [tg]).length = stop
      · rw [if_pos hstop]; exact h'
      · rw [if_neg hstop]; exact ih (tn ++ [tg]) h'

theorem lookupId_append_left (l1 l2 : List (PyVal × String)) (k : PyVal) (v : String)
    (h : lookupId l1 k = some v) : lookupId (l1 ++ l2) k = some v := by
  induction l1 with
  | nil => simp [lookupId] at h
  | cons p rest ih =>
    obtain ⟨i, n⟩ := p
    by_cases hik : i = k
    · simp only [lookupId, if_pos hik] at h
      simp only [List.cons_append, lookupId, if_pos hik]
      exact h
    · simp only [lookupId, if_neg hik] at h
      simp only [List.cons_append, lookupId, if_neg hik]
      exact ih h

theorem lookupId_isSome_of_mem (l : List (PyVal × String)) (k : PyVal)
    (h : k ∈ l.map Prod.fst) : ∃ v, lookupId l k = some v := by
  induction l with
  | nil => simp at h
  | cons p rest ih =>
    obtain ⟨i, n⟩ := p
    by_cases hik : i = k
    · exact ⟨n, by simp [lookupId, hik]⟩
    · simp only [List.map_cons, List.mem_cons] at h
      rcases h with h | h
      · exact absurd h.symm hik
      · obtain ⟨v, hv⟩ := ih h
        exact ⟨v, by simpa [lookupId, hik] using hv⟩

theorem dd_by_id_aux_sublist (l : List (PyVal × String)) (seen : List PyVal) :
    List.Sublist (dd_by_id_aux l seen) l := by
  induction l generalizing seen with
  | nil => simp [dd_by_id_aux]
  | cons p rest ih =>
    obtain ⟨i, n⟩ := p
    by_cases hi : i ∈ seen
    · simp only [dd_by_id_aux, if_pos hi]
      exact (ih seen).trans (List.sublist_cons_self _ _)
    · simp only [dd_by_id_aux, if_neg hi]
      exact (ih (i :: seen)).cons₂ _

theorem dd_by_id_aux_map_fst (l : List (PyVal × String)) (seen : List PyVal) :
    (dd_by_id_aux l seen).map Prod.fst = py_dedup_aux (l.map Prod.fst) seen := by
  induction l generalizing seen with
  | nil => simp [dd_by_id_aux, py_dedup_aux]
  | cons p rest ih =>
    obtain ⟨i, n⟩ := p
    by_cases hi : i ∈ seen
    · simp only [dd_by_id_aux, if_pos hi, List.map_cons, py_dedup_aux, ih]
    · simp only [dd_by_id_aux, if_neg hi, List.map_cons, py_dedup_aux, if_neg hi, ih]

theorem dedup_by_id_map_fst_nodup (l : List (PyVal × String)) :
    ((dedup_by_id l).map Prod.fst).Nodup := by
  rw [dedup_by_id, dd_by_id_aux_map_fst]
  exact py_dedup_aux_nodup _ _

theorem dedup_by_id_sublist (l : List (PyVal × String)) :
    List.Sublist (dedup_by_id l) l :=
  dd_by_id_aux_sublist l []

theorem lookupId_dd_by_id_aux (l : List (PyVal × String)) (seen : List PyVal)
    (k : PyVal) (hk : k ∉ seen) :
    lookupId (dd_by_id_aux l seen) k = lookupId l k := by
  induction l generalizing seen with
  | nil => simp [dd_by_id_aux]
  | cons p rest ih =>
    obtain ⟨i, n⟩ := p
    by_cases hi : i ∈ seen
    · have hik : ¬ i = k := fun h => hk (h ▸ hi)
      simp only [dd_by_id_aux, if_pos hi, lookupId, if_neg hik]
      exact ih seen hk
    · by_cases hik : i = k
      · simp [dd_by_id_aux, if_neg hi, lookupId, hik, hk]
      · simp only [dd_by_id_aux, if_neg hi, lookupId, if_neg hik]
        refine ih (i :: seen) ?_
        intro hmem
        rcases List.mem_cons.mp hmem with h | h
        · exact hik h.symm
        · exact hk h

theorem lookupId_dedup_by_id (l : List (PyVal × String)) (k : PyVal) :
    lookupId (dedup_by_id l) k = lookupId l k :=
  lookupId_dd_by_id_aux l [] k (by simp)

theorem lookupId_map_astype_dd (l : List (PyVal × String)) (seen : List PyVal)
    (k : PyVal) (hk : ∀ i ∈ seen, i.astype_str ≠ k) :
    lookupId ((dd_by_id_aux l seen).map row_astype_str) k =
      lookupId (l.map row_astype_str) k := by
  induction l generalizing seen with
  | nil => simp [dd_by_id_aux]
  | cons p rest ih =>
    obtain ⟨i, n⟩ := p
    by_cases hi : i ∈ seen
    · have hik : ¬ i.astype_str = k := hk i hi
      simp only [dd_by_id_aux, if_pos hi, List.map_cons, row_astype_str, lookupId, if_neg hik]
      exact ih seen hk
    · by_cases hik : i.astype_str = k
      · simp [dd_by_id_aux, if_neg hi, List.map_cons, row_astype_str, lookupId, hik]
      · simp only [dd_by_id_aux, if_neg hi, List.map_cons, row_astype_str, lookupId, if_neg hik]
        refine ih (i :: seen) ?_
        intro j hj
        rcases List.mem_cons.mp hj with h | h
        · exact h ▸ hik
        · exact hk j h

theorem lookupId_map_astype_dedup (l : List (PyVal × String)) (k : PyVal) :
    lookupId ((dedup_by_id l).map row_astype_str) k =
      lookupId (l.map row_astype_str) k :=
  lookupId_map_astype_dd l [] k (by simp)

theorem row_astype_eq_self (p : PyVal × String) (h : p.1.isStr = true) :
    row_astype_str p = p := by
  obtain ⟨i, n⟩ := p
  cases i with
  | pint m => simp [PyVal.isStr] at h
  | pstr s => simp [row_astype_str, PyVal.astype_str]

theorem map_row_astype_eq_self (l : List (PyVal × String))
    (h : ∀ p ∈ l, p.1.isStr = true) : l.map row_astype_str = l := by
  induction l with
  | nil => simp
  | cons p rest ih =>
    simp only [List.map_cons]
    rw [row_astype_eq_self p (h p (List.mem_cons_self _ _)),
      ih (fun q hq => h q (List.mem_cons_of_mem _ hq))]

theorem astype_isStr (v : PyVal) : v.astype_str.isStr = true := by
  cases v <;> simp [PyVal.astype_str, PyVal.isStr]

theorem py_sample_none (k : Nat) (g : Nat) (l : List String)
    (h : l.length < k) : py_sample k g l = none := by
  induction k generalizing g l with
  | zero => omega
  | succ k ih =>
    by_cases hl : l.length = 0
    · simp [py_sample, hl]
    · have hx : l.get ⟨g % l.length, Nat.mod_lt _ (Nat.pos_of_ne_zero hl)⟩ ∈ l :=
        List.get_mem l _ _
      have herase : (l.erase (l.get ⟨g % l.length, Nat.mod_lt _ (Nat.pos_of_ne_zero hl)⟩)).length
          = l.length - 1 := List.length_erase_of_mem hx
      have : (l.erase (l.get ⟨g % l.length, Nat.mod_lt _ (Nat.pos_of_ne_zero hl)⟩)).length < k := by
        omega
      simp only [py_sample, dif_neg hl]
      rw [ih _ _ this]

theorem py_sample_spec (k : Nat) (g : Nat) (l : List String) (xs : List String)
    (g2 : Nat) (h : py_sample k g l = some (xs, g2)) :
    xs.length = k ∧ (∀ x ∈ xs, x ∈ l) ∧ (l.Nodup → xs.Nodup) := by
  induction k generalizing g l xs g2 with
  | zero =>
    simp only [py_sample, Option.some.injEq, Prod.mk.injEq] at h
    obtain ⟨rfl, rfl⟩ := h
    simp
  | succ k ih =>
    by_cases hl : l.length = 0
    · simp [py_sample, hl] at h
    · simp only [py_sample, dif_neg hl] at h
      set x := l.get ⟨g % l.length, Nat.mod_lt _ (Nat.pos_of_ne_zero hl)⟩ with hxdef
      cases hrec : py_sample k (lcg_next g) (l.erase x) with
      | none => rw [hrec] at h; simp at h
      | some out =>
        obtain ⟨ys, g3⟩ := out
        rw [hrec] at h
        simp only [Option.some.injEq, Prod.mk.injEq] at h
        obtain ⟨h1, h2⟩ := h
        subst h1
        subst h2
        obtain ⟨hlen, hsub, hnd⟩ := ih _ _ _ _ hrec
        refine ⟨by simp [hlen], ?_, ?_⟩
        · intro y hy
          rcases List.mem_cons.mp hy with rfl | hy
          · exact List.get_mem l _ _
          · exact List.mem_of_mem_erase (hsub y hy)
        · intro hnodup
          have hxe : x ∉ l.erase x := hnodup.not_mem_erase
          refine List.nodup_cons.mpr ⟨fun hmem => hxe (hsub x hmem), hnd (hnodup.erase x)⟩

/-! ### Lemmas about the target phase -/

theorem target_phase_cons (rdb : RDB) (tmd : List (String × String))
    (tid : List (PyVal × String)) (grn : List GRNRecord) (tf : PyVal)
    (rest : List PyVal) (tn : List String) (ti : List PyVal) (tp : TargetPhaseOut)
    (h : target_phase rdb tmd tid grn (tf :: rest) tn ti = some tp) :
    ∃ tf_name one_motif cols out,
      dictGet tid tf = some tf_name ∧
      dictGet tmd tf_name = some one_motif ∧
      motif_sorted_genes rdb one_motif = some cols ∧
      target_phase rdb tmd tid grn rest
        (claim_loop cols tn (tn.length + (get_dir grn tf).length))
        (ti ++ get_dir grn tf) = some out ∧
      tp = ⟨out.total_name, out.total_id,
        ((claim_loop cols tn (tn.length + (get_dir grn tf).length)).length - tn.length,
          (get_dir grn tf).length) :: out.counts⟩ := by
  simp only [target_phase, Option.bind_eq_bind, Option.bind_eq_some,
    Option.some.injEq] at h
  obtain ⟨tf_name, h1, one_motif, h2, cols, h3, out, h4, h5⟩ := h
  exact ⟨tf_name, one_motif, cols, out, h1, h2, h3, h4, h5.symm⟩

theorem target_phase_ids (rdb : RDB) (tmd : List (String × String))
    (tid : List (PyVal × String)) (grn : List GRNRecord) (tfs : List PyVal)
    (tn : List String) (ti : List PyVal) (tp : TargetPhaseOut)
    (h : target_phase rdb tmd tid grn tfs tn ti = some tp) :
    tp.total_id = ti ++ tfs.flatMap (get_dir grn) := by
  induction tfs generalizing tn ti tp with
  | nil =>
    simp only [target_phase, Option.some.injEq] at h
    subst h
    simp
  | cons tf rest ih =>
    obtain ⟨_, _, cols, out, _, _, _, h4, h5⟩ := target_phase_cons _ _ _ _ _ _ _ _ _ h
    subst h5
    have := ih _ _ _ h4
    simp only [this, List.flatMap_cons, List.append_assoc]

theorem target_phase_names_ext (rdb : RDB) (tmd : List (String × String))
    (tid : List (PyVal × String)) (grn : List GRNRecord) (tfs : List PyVal)
    (tn : List String) (ti : List PyVal) (tp : TargetPhaseOut)
    (h : target_phase rdb tmd tid grn tfs tn ti = some tp) :
    ∃ ext, tp.total_name = tn ++ ext := by
  induction tfs generalizing tn ti tp with
  | nil =>
    simp only [target_phase, Option.some.injEq] at h
    subst h
    exact ⟨[], by simp⟩
  | cons tf rest ih =>
    obtain ⟨_, _, cols, out, _, _, _, h4, h5⟩ := target_phase_cons _ _ _ _ _ _ _ _ _ h
    subst h5
    obtain ⟨ext1, hext1⟩ :=
      claim_loop_append cols tn (tn.length + (get_dir grn tf).length)
    obtain ⟨ext2, hext2⟩ := ih _ _ _ h4
    exact ⟨ext1 ++ ext2, by simp [hext2, hext1, List.append_assoc]⟩

theorem target_phase_names_nodup (rdb : RDB) (tmd : List (String × String))
    (tid : List (PyVal × String)) (grn : List GRNRecord) (tfs : List PyVal)
    (tn : List String) (ti : List PyVal) (tp : TargetPhaseOut)
    (hnd : tn.Nodup) (h : target_phase rdb tmd tid grn tfs tn ti = some tp) :
    tp.total_name.Nodup := by
  induction tfs generalizing tn ti tp with
  | nil =>
    simp only [target_phase, Option.some.injEq] at h
    subst h
    exact hnd
  | cons tf rest ih =>
    obtain ⟨_, _, cols, out, _, _, _, h4, h5⟩ := target_phase_cons _ _ _ _ _ _ _ _ _ h
    subst h5
    have hrec := ih _ _ out (claim_loop_nodup _ _ _ hnd) h4
    simpa using hrec

theorem target_phase_len_name (rdb : RDB) (tmd : List (String × String))
    (tid : List (PyVal × String)) (grn : List GRNRecord) (tfs : List PyVal)
    (tn : List String) (ti : List PyVal) (tp : TargetPhaseOut)
    (h : target_phase rdb tmd tid grn tfs tn ti = some tp) :
    tp.total_name.length = tn.length + (tp.counts.map Prod.fst).sum := by
  induction tfs generalizing tn ti tp with
  | nil =>
    simp only [target_phase, Option.some.injEq] at h
    subst h
    simp
  | cons tf rest ih =>
    obtain ⟨_, _, cols, out, _, _, _, h4, h5⟩ := target_phase_cons _ _ _ _ _ _ _ _ _ h
    subst h5
    obtain ⟨ext, hext⟩ :=
      claim_loop_append cols tn (tn.length + (get_dir grn tf).length)
    have hge : tn.length ≤ (claim_loop cols tn (tn.length + (get_dir grn tf).length)).length := by
      rw [hext]; simp
    have := ih _ _ _ h4
    simp only [List.map_cons, List.sum_cons]
    omega

theorem target_phase_len_id (rdb : RDB) (tmd : List (String × String))
    (tid : List (PyVal × String)) (grn : List GRNRecord) (tfs : List PyVal)
    (tn : List String) (ti : List PyVal) (tp : TargetPhaseOut)
    (h : target_phase rdb tmd tid grn tfs tn ti = some tp) :
    tp.total_id.length = ti.length + (tp.counts.map Prod.snd).sum := by
  induction tfs generalizing tn ti tp with
  | nil =>
    simp only [target_phase, Option.some.injEq] at h
    subst h
    simp
  | cons tf rest ih =>
    obtain ⟨_, _, cols, out, _, _, _, h4, h5⟩ := target_phase_cons _ _ _ _ _ _ _ _ _ h
    subst h5
    have := ih _ _ _ h4
    simp only [List.map_cons, List.sum_cons]
    simp only [List.length_append] at this
    omega

/-! ### Lemmas about the first DataFrame stage and the full pipeline -/

theorem make_df_eq (ids : List PyVal) (names : List String)
    (df : List (PyVal × String)) (h : make_df ids names = some df) :
    ids.length = names.length ∧ df = ids.zip names := by
  by_cases hlen : ids.length = names.length
  · simp only [make_df, if_pos hlen, Option.some.injEq] at h
    exact ⟨hlen, h.symm⟩
  · simp [make_df, if_neg hlen] at h

theorem make_df_none (ids : List PyVal) (names : List String)
    (h : ids.length ≠ names.length) : make_df ids names = none := by
  simp [make_df, if_neg h]

theorem name_df1_stage_eq (lr : List LRRecord) (ids : List PyVal)
    (names : List String) (df1 : List (PyVal × String))
    (h : name_df1_stage lr ids names = some df1) :
    ids.length = names.length ∧
      df1 = ((dedup_by_id (ids.zip names)).map row_astype_str).filter
        (fun p => decide (p.1 ∉ py_dedup (lr.map LRRecord.receptor))) := by
  simp only [name_df1_stage, Option.bind_eq_bind, Option.bind_eq_some,
    Option.some.injEq] at h
  obtain ⟨df, hdf, hfd⟩ := h
  obtain ⟨hlen, rfl⟩ := make_df_eq _ _ _ hdf
  exact ⟨hlen, hfd.symm⟩

theorem name_df1_stage_none (lr : List LRRecord) (ids : List PyVal)
    (names : List String) (h : ids.length ≠ names.length) :
    name_df1_stage lr ids names = none := by
  simp [name_df1_stage, make_df_none _ _ h]

theorem name_df1_ids_isStr (lr : List LRRecord) (ids : List PyVal)
    (names : List String) (df1 : List (PyVal × String))
    (h : name_df1_stage lr ids names = some df1) :
    ∀ p ∈ df1, p.1.isStr = true := by
  obtain ⟨-, rfl⟩ := name_df1_stage_eq _ _ _ _ h
  intro p hp
  have hp' := List.mem_of_mem_filter hp
  obtain ⟨q, -, rfl⟩ := List.mem_map.mp hp'
  exact astype_isStr q.1

theorem name_df1_snd_sublist (lr : List LRRecord) (ids : List PyVal)
    (names : List String) (df1 : List (PyVal × String))
    (h : name_df1_stage lr ids names = some df1) :
    List.Sublist (df1.map Prod.snd) names := by
  obtain ⟨hlen, rfl⟩ := name_df1_stage_eq _ _ _ _ h
  have h1 : List.Sublist
      (((dedup_by_id (ids.zip names)).map row_astype_str).filter
        (fun p => decide (p.1 ∉ py_dedup (lr.map LRRecord.receptor))))
      ((dedup_by_id (ids.zip names)).map row_astype_str) :=
    List.filter_sublist _
  have h2 : List.Sublist
      ((((dedup_by_id (ids.zip names)).map row_astype_str).filter
        (fun p => decide (p.1 ∉ py_dedup (lr.map LRRecord.receptor)))).map Prod.snd)
      (((dedup_by_id (ids.zip names)).map row_astype_str).map Prod.snd) :=
    h1.map Prod.snd
  have h3 : ((dedup_by_id (ids.zip names)).map row_astype_str).map Prod.snd
      = (dedup_by_id (ids.zip names)).map Prod.snd := by
    simp [List.map_map, Function.comp, row_astype_str]
  have h4 : List.Sublist ((dedup_by_id (ids.zip names)).map Prod.snd)
      ((ids.zip names).map Prod.snd) := (dedup_by_id_sublist _).map Prod.snd
  have h5 : (ids.zip names).map Prod.snd = names := by
    apply List.map_snd_zip
    omega
  rw [h3] at h2
  rw [h5] at h4
  exact h2.trans h4

theorem name_df1_names_nodup (lr : List LRRecord) (ids : List PyVal)
    (names : List String) (df1 : List (PyVal × String))
    (hnd : names.Nodup) (h : name_df1_stage lr ids names = some df1) :
    (df1.map Prod.snd).Nodup :=
  hnd.sublist (name_df1_snd_sublist _ _ _ _ h)

theorem assign_inversion (tfs : List PyVal) (rdb : RDB)
    (tmd : List (String × String)) (tid : List (PyVal × String))
    (grn : List GRNRecord) (lr : List LRRecord)
    (tn : List String) (ti : List PyVal) (noise : List PyVal)
    (nfrom nto : List String) (g : Nat) (r : AssignResult)
    (h : assign_gene_names_og tfs rdb tmd tid grn lr tn ti noise nfrom nto g = some r) :
    ∃ tp df1 ns g1 ls g2 rs g3,
      target_phase rdb tmd tid grn tfs tn ti = some tp ∧
      name_df1_stage lr tp.total_id tp.total_name = some df1 ∧
      py_sample noise.length g (rest_rdb_names rdb (df1.map Prod.snd)) = some (ns, g1) ∧
      py_sample (py_dedup (lr.map LRRecord.ligand)).length g1
        (rest_names_from nfrom (df1.map Prod.snd ++ ns)) = some (ls, g2) ∧
      py_sample (py_dedup (lr.map LRRecord.receptor)).length g2
        (rest_names_from nto (df1.map Prod.snd ++ ns ++ ls)) = some (rs, g3) ∧
      r.final_total_name = df1.map Prod.snd ++ ns ++ ls ++ rs ∧
      r.final_total_id = df1.map Prod.fst ++ noise ++ py_dedup (lr.map LRRecord.ligand)
          ++ py_dedup (lr.map LRRecord.receptor) ∧
      r.final_total_id.length = r.final_total_name.length ∧
      r.table = (dedup_by_id (r.final_total_id.zip r.final_total_name)).map row_astype_str ∧
      r.caller_total_name = tp.total_name ∧ r.caller_total_id = tp.total_id ∧
      r.rdb_out = rdb ∧ r.grn_gt_out = grn ∧ r.lr_gt_out = lr := by
  simp only [assign_gene_names_og, Option.bind_eq_bind, Option.bind_eq_some] at h
  obtain ⟨tp, htp, h⟩ := h
  obtain ⟨df1, hdf1, h⟩ := h
  obtain ⟨⟨ns, g1⟩, hns, h⟩ := h
  obtain ⟨⟨ls, g2⟩, hls, h⟩ := h
  obtain ⟨⟨rs, g3⟩, hrs, h⟩ := h
  obtain ⟨df, hdf, h⟩ := h
  obtain ⟨hlen, rfl⟩ := make_df_eq _ _ _ hdf
  refine ⟨tp, df1, ns, g1, ls, g2, rs, g3, htp, hdf1, hns, hls, hrs, ?_⟩
  by_cases hdup : has_dup_row ((dedup_by_id
      ((df1.map Prod.fst ++ noise ++ py_dedup (lr.map LRRecord.ligand)
        ++ py_dedup (lr.map LRRecord.receptor)).zip
       (df1.map Prod.snd ++ ns ++ ls ++ rs))).map row_astype_str) = true
  · rw [if_pos hdup] at h
    exact absurd h (by simp)
  · rw [if_neg hdup] at h
    have hr := Option.some.inj h
    subst hr
    simp only [List.length_append, List.length_map] at hlen
    refine ⟨rfl, rfl, by simp only [List.length_append, List.length_map]; omega,
      rfl, rfl, rfl, rfl, rfl, rfl⟩

/-! ### Helper results about lookups and identifier membership -/

theorem astype_eq_self (v : PyVal) (h : v.isStr = true) : v.astype_str = v := by
  cases v with
  | pint n => simp [PyVal.isStr] at h
  | pstr s => rfl

theorem zip_fst_snd (l : List (PyVal × String)) :
    (l.map Prod.fst).zip (l.map Prod.snd) = l := by
  induction l with
  | nil => rfl
  | cons p rest ih => simp [ih]

theorem lookupId_filter_of_pred (l : List (PyVal × String))
    (pred : PyVal × String → Bool) (k : PyVal) (v : String)
    (hp : pred (k, v) = true) (h : lookupId l k = some v) :
    lookupId (l.filter pred) k = some v := by
  induction l with
  | nil => simp [lookupId] at h
  | cons p rest ih =>
    obtain ⟨i, n⟩ := p
    by_cases hik : i = k
    · simp only [lookupId, if_pos hik] at h
      have hnv : n = v := Option.some.inj h
      subst hnv
      subst hik
      simp [List.filter_cons, hp, lookupId]
    · simp only [lookupId, if_neg hik] at h
      by_cases hpred : pred (i, n) = true
      · simp only [List.filter_cons, hpred]
        simp only [lookupId, if_neg hik]
        exact ih h
      · simp only [List.filter_cons, Bool.not_eq_true] at hpred ⊢
        rw [hpred]
        exact ih h

theorem lookupId_zip_get (ids : List PyVal) (names : List String)
    (hnd : ids.Nodup) (i : Nat) (hi : i < ids.length) (hi2 : i < names.length) :
    lookupId (ids.zip names) (ids.get ⟨i, hi⟩) = some (names.get ⟨i, hi2⟩) := by
  induction ids generalizing names i with
  | nil => simp at hi
  | cons a rest ih =>
    cases names with
    | nil => simp at hi2
    | cons b bnames =>
      cases i with
      | zero => simp [lookupId]
      | succ j =>
        have hjr : j < rest.length := by simpa using hi
        have hjb : j < bnames.length := by simpa using hi2
        have hne : ¬ a = rest.get ⟨j, hjr⟩ := by
          intro heq
          exact (List.nodup_cons.mp hnd).1 (heq ▸ List.get_mem rest j hjr)
        simp only [List.zip_cons_cons, List.get_cons_succ, lookupId, if_neg hne]
        exact ih bnames (List.nodup_cons.mp hnd).2 j hjr hjb

theorem mem_dedup_fst (ids : List PyVal) (names : List String)
    (hlen : ids.length = names.length) (y : PyVal) :
    y ∈ (dedup_by_id (ids.zip names)).map Prod.fst ↔ y ∈ ids := by
  rw [dedup_by_id, dd_by_id_aux_map_fst, mem_py_dedup_aux,
    List.map_fst_zip ids names (le_of_eq hlen)]
  simp

theorem mem_table_fst (ids : List PyVal) (names : List String)
    (hlen : ids.length = names.length) (x : PyVal) :
    x ∈ ((dedup_by_id (ids.zip names)).map row_astype_str).map Prod.fst ↔
      ∃ y ∈ ids, y.astype_str = x := by
  rw [List.map_map]
  constructor
  · intro hx
    obtain ⟨q, hq, rfl⟩ := List.mem_map.mp hx
    have hq1 : q.1 ∈ ids := by
      rw [← mem_dedup_fst ids names hlen]
      exact List.mem_map_of_mem _ hq
    exact ⟨q.1, hq1, rfl⟩
  · rintro ⟨y, hy, rfl⟩
    have h1 : y ∈ (dedup_by_id (ids.zip names)).map Prod.fst :=
      (mem_dedup_fst ids names hlen y).mpr hy
    obtain ⟨q, hq, hqy⟩ := List.mem_map.mp h1
    refine List.mem_map.mpr ⟨q, hq, ?_⟩
    simp [Function.comp, row_astype_str, hqy]

theorem mem_filter_fst (M : List (PyVal × String)) (recs : List PyVal) (x : PyVal) :
    x ∈ (M.filter (fun p => decide (p.1 ∉ recs))).map Prod.fst ↔
      x ∈ M.map Prod.fst ∧ x ∉ recs := by
  constructor
  · intro hx
    obtain ⟨p, hp, rfl⟩ := List.mem_map.mp hx
    have hmem := List.mem_of_mem_filter hp
    have hpred := List.of_mem_filter hp
    simp only [decide_eq_true_eq] at hpred
    exact ⟨List.mem_map_of_mem _ hmem, hpred⟩
  · rintro ⟨hx, hnr⟩
    obtain ⟨p, hp, rfl⟩ := List.mem_map.mp hx
    refine List.mem_map.mpr ⟨p, List.mem_filter.mpr ⟨hp, by simpa using hnr⟩, rfl⟩

theorem mem_df1_fst (lr : List LRRecord) (ids : List PyVal) (names : List String)
    (df1 : List (PyVal × String)) (h : name_df1_stage lr ids names = some df1)
    (x : PyVal) :
    x ∈ df1.map Prod.fst ↔
      (∃ y ∈ ids, y.astype_str = x) ∧
        x ∉ py_dedup (lr.map LRRecord.receptor) := by
  obtain ⟨hlen, rfl⟩ := name_df1_stage_eq _ _ _ _ h
  rw [mem_filter_fst, mem_table_fst ids names hlen]

/-- Shared step for the reproducibility and passthrough claims: a binding
found in the first DataFrame is the binding of the final table, whatever
the later sampled segments are. -/
theorem lookupId_final_table (r : AssignResult) (df1 : List (PyVal × String))
    (restIds : List PyVal) (restNames : List String)
    (hfi : r.final_total_id = df1.map Prod.fst ++ restIds)
    (hfn : r.final_total_name = df1.map Prod.snd ++ restNames)
    (htab : r.table =
      (dedup_by_id (r.final_total_id.zip r.final_total_name)).map row_astype_str)
    (hids : ∀ p ∈ df1, p.1.isStr = true)
    (k : PyVal) (v : String) (hv : lookupId df1 k = some v) :
    lookupId r.table k = some v := by
  have hsplit : r.final_total_id.zip r.final_total_name =
      df1 ++ restIds.zip restNames := by
    rw [hfi, hfn, List.zip_append (by simp), zip_fst_snd]
  rw [htab, lookupId_map_astype_dedup, hsplit, List.map_append,
    map_row_astype_eq_self df1 hids]
  exact lookupId_append_left _ _ _ _ hv

/-! ### Helper results for sums of the per-TF claim counts -/

theorem counts_sum_le (l : List (Nat × Nat)) (hle : ∀ c ∈ l, c.1 ≤ c.2) :
    (l.map Prod.fst).sum ≤ (l.map Prod.snd).sum := by
  induction l with
  | nil => simp
  | cons c rest ih =>
    simp only [List.map_cons, List.sum_cons]
    have h1 := hle c (List.mem_cons_self _ _)
    have h2 := ih (fun d hd => hle d (List.mem_cons_of_mem _ hd))
    omega

theorem counts_sum_lt (l : List (Nat × Nat)) (hex : ∃ c ∈ l, c.1 < c.2)
    (hle : ∀ c ∈ l, c.1 ≤ c.2) :
    (l.map Prod.fst).sum < (l.map Prod.snd).sum := by
  induction l with
  | nil => simp at hex
  | cons c rest ih =>
    simp only [List.map_cons, List.sum_cons]
    obtain ⟨d, hd, hlt⟩ := hex
    rcases List.mem_cons.mp hd with rfl | hd
    · have := counts_sum_le rest (fun e he => hle e (List.mem_cons_of_mem _ he))
      omega
    · have h1 := hle c (List.mem_cons_self _ _)
      have h2 := ih ⟨d, hd, hlt⟩ (fun e he => hle e (List.mem_cons_of_mem _ he))
      omega

/-! ### The claims -/

/-- Claim C7: when the unused-name pool available at the noise phase has
fewer entries than the noise-identifier count, the sample call raises, so
assign_gene_names_og fails before returning and the name_df.to_csv write of
the entry point never runs. -/
theorem C7_pool_exhaustion_fails (tfs : List PyVal) (rdb : RDB)
    (tmd : List (String × String)) (tid : List (PyVal × String))
    (grn : List GRNRecord) (lr : List LRRecord) (tn : List String)
    (ti : List PyVal) (noise : List PyVal) (nfrom nto : List String) (g : Nat)
    (tp : TargetPhaseOut) (df1 : List (PyVal × String))
    (htp : target_phase rdb tmd tid grn tfs tn ti = some tp)
    (hdf1 : name_df1_stage lr tp.total_id tp.total_name = some df1)
    (hpool : (rest_rdb_names rdb (df1.map Prod.snd)).length < noise.length) :
    assign_gene_names_og tfs rdb tmd tid grn lr tn ti noise nfrom nto g = none ∧
      produced_output_file tfs rdb tmd tid grn lr tn ti noise nfrom nto g = false := by
  have hs := py_sample_none noise.length g _ hpool
  have hmain : assign_gene_names_og tfs rdb tmd tid grn lr tn ti noise nfrom nto g
      = none := by
    simp only [assign_gene_names_og, Option.bind_eq_bind, htp, Option.some_bind,
      hdf1, hs, Option.none_bind]
  exact ⟨hmain, by simp [produced_output_file, hmain]⟩

/-- Claim C7 witness: a concrete run whose pool holds four names while five
noise identifiers need names; the run fails and writes nothing. -/
theorem C7_witness :
    assign_gene_names_og W_tfs W_rdb W_tmd W_tid W_grn W_lr W_tn W_ti P_noise
        W_from W_to 0 = none ∧
      produced_output_file W_tfs W_rdb W_tmd W_tid W_grn W_lr W_tn W_ti P_noise
        W_from W_to 0 = false :=
  C7_pool_exhaustion_fails W_tfs W_rdb W_tmd W_tid W_grn W_lr W_tn W_ti P_noise
    W_from W_to 0 W_tp W_df1 (by decide) (by decide) (by decide)

/-- Claim C3 counterexample: the single TF of this run has two regulated
identifiers (top_num = 2) but its sorted candidate sequence holds only one
name, so the candidates are exhausted after one claim; contrary to the
claim, the run does not complete with the remainder omitted: the unequal
column lengths make the DataFrame constructor raise and the function fails. -/
theorem C3_counterexample :
    (get_dir W_grn (PyVal.pstr "T1")).length = 2 ∧
      motif_sorted_genes E_rdb "M1" = some ["nA"] ∧
      assign_gene_names_og W_tfs E_rdb W_tmd W_tid W_grn W_lr W_tn W_ti W_noise
        W_from W_to 0 = none := by decide

/-- Claim C3 amended: when the seeds are aligned and some TF exhausts its
candidate sequence before top_num names are claimed while no TF claims more
names than its top_num, the two accumulators end with different lengths and
the DataFrame construction of the table raises: assign_gene_names_og fails
instead of silently omitting the unbound remainder. -/
theorem C3_exhaustion_raises (tfs : List PyVal) (rdb : RDB)
    (tmd : List (String × String)) (tid : List (PyVal × String))
    (grn : List GRNRecord) (lr : List LRRecord) (tn : List String)
    (ti : List PyVal) (noise : List PyVal) (nfrom nto : List String) (g : Nat)
    (tp : TargetPhaseOut)
    (htp : target_phase rdb tmd tid grn tfs tn ti = some tp)
    (hseed : tn.length = ti.length)
    (hex : ∃ c ∈ tp.counts, c.1 < c.2)
    (hle : ∀ c ∈ tp.counts, c.1 ≤ c.2) :
    assign_gene_names_og tfs rdb tmd tid grn lr tn ti noise nfrom nto g = none := by
  have h1 := target_phase_len_name rdb tmd tid grn tfs tn ti tp htp
  have h2 := target_phase_len_id rdb tmd tid grn tfs tn ti tp htp
  have hsum := counts_sum_lt tp.counts hex hle
  have hne : tp.total_id.length ≠ tp.total_name.length := by omega
  have hdf := name_df1_stage_none lr tp.total_id tp.total_name hne
  simp only [assign_gene_names_og, Option.bind_eq_bind, htp, Option.some_bind,
    hdf, Option.none_bind]

/-- Claim C3 witness for the amended statement, at the concrete exhaustion
input of the counterexample. -/
theorem C3_witness :
    assign_gene_names_og W_tfs E_rdb W_tmd W_tid W_grn W_lr W_tn W_ti W_noise
      W_from W_to 7 = none :=
  C3_exhaustion_raises W_tfs E_rdb W_tmd W_tid W_grn W_lr W_tn W_ti W_noise
    W_from W_to 7 E_tp (by decide) (by decide)
    ⟨(1, 2), by decide, by decide⟩ (by decide)

/-- Claim C5: the noise pool is meant to be the catalog column names minus
the reserved motifs label minus the claimed names; the code subtracts
set(motifs-as-a-string), the set of the six characters m o t i f s, so the
motifs label itself stays in the pool while any one-character gene column
named by one of those characters is wrongly removed. Evaluated on concrete
catalogs. -/
theorem C5_motifs_label_in_pool :
    "motifs" ∈ rest_rdb_names W_rdb ["TN1", "nA", "nB"] ∧
      "m" ∉ total_rdb_names ⟨["m", "nX"], []⟩ := by decide

/-- Claim C6: with integer identifiers, astype(str) runs before the isin
receptor filter, so the string-coerced ids never match the raw integer
receptor values and nothing is filtered: identifier 7, both a regulatory
target and a receptor, keeps its target-phase binding (id 7 bound to nA)
and additionally receives a receptor-phase row, leaving two rows for the
same identifier in the final table. -/
theorem C6_receptor_filter_noop :
    (assign_gene_names_og F_tfs F_rdb F_tmd F_tid F_grn F_lr ["TN"] [.pint 1]
        [] ["lA"] ["rA"] 0).map AssignResult.table =
      some [(.pstr "1", "TN"), (.pstr "7", "nA"), (.pstr "5", "lA"),
        (.pstr "7", "rA")] := by decide

/-- Claim C10: a call that returns has mutated the caller-visible list
arguments in place exactly up to the end of the target phase: the caller's
total_id holds the seed followed by every regulated-identifier sequence
appended in phase 2 (in TF order), the caller's total_name extends the seed
by the claimed names, and the later phases only rebind local names; the
dataframe arguments rdb, grn_gt and lr_gt are left unchanged. -/
theorem C10_frame_effects (tfs : List PyVal) (rdb : RDB)
    (tmd : List (String × String)) (tid : List (PyVal × String))
    (grn : List GRNRecord) (lr : List LRRecord) (tn : List String)
    (ti : List PyVal) (noise : List PyVal) (nfrom nto : List String) (g : Nat)
    (r : AssignResult)
    (h : assign_gene_names_og tfs rdb tmd tid grn lr tn ti noise nfrom nto g = some r) :
    r.caller_total_id = ti ++ tfs.flatMap (get_dir grn) ∧
      (∃ ext, r.caller_total_name = tn ++ ext) ∧
      r.rdb_out = rdb ∧ r.grn_gt_out = grn ∧ r.lr_gt_out = lr := by
  obtain ⟨tp, df1, ns, g1, ls, g2, rs, g3, htp, hdf1, hns, hls, hrs, hfn, hfi,
    hlen, htab, hcn, hci, hrdb, hgrn, hlr⟩ :=
    assign_inversion tfs rdb tmd tid grn lr tn ti noise nfrom nto g r h
  refine ⟨?_, ?_, hrdb, hgrn, hlr⟩
  · rw [hci]
    exact target_phase_ids rdb tmd tid grn tfs tn ti tp htp
  · obtain ⟨ext, hext⟩ := target_phase_names_ext rdb tmd tid grn tfs tn ti tp htp
    exact ⟨ext, by rw [hcn, hext]⟩

/-- Claim C10 witness at the concrete happy-path run. -/
theorem C10_witness :
    W_res.caller_total_id = W_ti ++ W_tfs.flatMap (get_dir W_grn) ∧
      (∃ ext, W_res.caller_total_name = W_tn ++ ext) ∧
      W_res.rdb_out = W_rdb ∧ W_res.grn_gt_out = W_grn ∧ W_res.lr_gt_out = W_lr :=
  C10_frame_effects W_tfs W_rdb W_tmd W_tid W_grn W_lr W_tn W_ti W_noise
    W_from W_to 0 W_res (by decide)

/-- Claim C1: in every returning run whose seed name list is
duplicate-free, the returned table binds distinct identifiers to distinct
names, and the accumulated name list over all five phases is
duplicate-free, so a name claimed by an earlier phase is never reused by a
later one. -/
theorem C1_injectivity (tfs : List PyVal) (rdb : RDB)
    (tmd : List (String × String)) (tid : List (PyVal × String))
    (grn : List GRNRecord) (lr : List LRRecord) (tn : List String)
    (ti : List PyVal) (noise : List PyVal) (nfrom nto : List String) (g : Nat)
    (r : AssignResult) (hnd : tn.Nodup)
    (h : assign_gene_names_og tfs rdb tmd tid grn lr tn ti noise nfrom nto g = some r) :
    (∀ p ∈ r.table, ∀ q ∈ r.table, p.1 ≠ q.1 → p.2 ≠ q.2) ∧
      r.final_total_name.Nodup := by
  obtain ⟨tp, df1, ns, g1, ls, g2, rs, g3, htp, hdf1, hns, hls, hrs, hfn, hfi,
    hlen, htab, -, -, -, -, -⟩ :=
    assign_inversion tfs rdb tmd tid grn lr tn ti noise nfrom nto g r h
  have htpnd := target_phase_names_nodup rdb tmd tid grn tfs tn ti tp hnd htp
  have hdf1nd := name_df1_names_nodup lr tp.total_id tp.total_name df1 htpnd hdf1
  obtain ⟨hnslen, hnssub, hnsnd⟩ := py_sample_spec _ _ _ _ _ hns
  obtain ⟨hlslen, hlssub, hlsnd⟩ := py_sample_spec _ _ _ _ _ hls
  obtain ⟨hrslen, hrssub, hrsnd⟩ := py_sample_spec _ _ _ _ _ hrs
  have hpool1nd : (rest_rdb_names rdb (df1.map Prod.snd)).Nodup :=
    ((py_dedup_nodup _).filter _).filter _
  have hpool2nd : (rest_names_from nfrom (df1.map Prod.snd ++ ns)).Nodup :=
    (py_dedup_nodup _).filter _
  have hpool3nd : (rest_names_from nto (df1.map Prod.snd ++ ns ++ ls)).Nodup :=
    (py_dedup_nodup _).filter _
  have hdisj1 : ∀ a ∈ ns, a ∉ df1.map Prod.snd := by
    intro a ha
    have := List.of_mem_filter (hnssub a ha)
    simpa using this
  have hdisj2 : ∀ a ∈ ls, a ∉ df1.map Prod.snd ++ ns := by
    intro a ha
    have := List.of_mem_filter (hlssub a ha)
    simpa using this
  have hdisj3 : ∀ a ∈ rs, a ∉ df1.map Prod.snd ++ ns ++ ls := by
    intro a ha
    have := List.of_mem_filter (hrssub a ha)
    simpa using this
  have hA : (df1.map Prod.snd ++ ns).Nodup :=
    hdf1nd.append (hnsnd hpool1nd) (fun a ha hb => hdisj1 a hb ha)
  have hB : (df1.map Prod.snd ++ ns ++ ls).Nodup :=
    hA.append (hlsnd hpool2nd) (fun a ha hb => hdisj2 a hb ha)
  have hC : (df1.map Prod.snd ++ ns ++ ls ++ rs).Nodup :=
    hB.append (hrsnd hpool3nd) (fun a ha hb => hdisj3 a hb ha)
  have hCfn : r.final_total_name.Nodup := by rw [hfn]; exact hC
  refine ⟨?_, hCfn⟩
  have hsnd : r.table.map Prod.snd =
      (dedup_by_id (r.final_total_id.zip r.final_total_name)).map Prod.snd := by
    rw [htab]
    simp [List.map_map, Function.comp, row_astype_str]
  have hsub1 : List.Sublist
      ((dedup_by_id (r.final_total_id.zip r.final_total_name)).map Prod.snd)
      ((r.final_total_id.zip r.final_total_name).map Prod.snd) :=
    (dedup_by_id_sublist _).map Prod.snd
  have hzip : (r.final_total_id.zip r.final_total_name).map Prod.snd
      = r.final_total_name := by
    apply List.map_snd_zip
    omega
  have hzipnd : ((r.final_total_id.zip r.final_total_name).map Prod.snd).Nodup := by
    rw [hzip]; exact hCfn
  have htabnd : (r.table.map Prod.snd).Nodup := by
    rw [hsnd]
    exact hzipnd.sublist hsub1
  intro p hp q hq hne heq
  exact hne (congrArg Prod.fst (List.inj_on_of_nodup_map htabnd hp hq heq))

/-- Claim C1 witness: two concrete rows of the witness table with distinct
identifiers have distinct names, and the accumulated name list of the
witness run is duplicate-free. -/
theorem C1_witness :
    ((PyVal.pstr "T1", "TN1") : PyVal × String).2 ≠
        ((PyVal.pstr "g1", "nA") : PyVal × String).2 ∧
      W_res.final_total_name.Nodup :=
  ⟨(C1_injectivity W_tfs W_rdb W_tmd W_tid W_grn W_lr W_tn W_ti W_noise W_from
      W_to 0 W_res (by decide) (by decide)).1 (PyVal.pstr "T1", "TN1")
      (by decide) (PyVal.pstr "g1", "nA") (by decide) (by decide),
    (C1_injectivity W_tfs W_rdb W_tmd W_tid W_grn W_lr W_tn W_ti W_noise W_from
      W_to 0 W_res (by decide) (by decide)).2⟩

/-- Claim C8: when the caller seeds total_id with the TF list and
total_name with the matching names, the TF list is duplicate-free, the TF
identifiers are strings, and no TF identifier is also a ground-truth
receptor, every returning run binds each TF identifier to the
caller-supplied name at its seed position; no later phase replaces it. -/
theorem C8_tf_passthrough (tfs : List PyVal) (rdb : RDB)
    (tmd : List (String × String)) (tid : List (PyVal × String))
    (grn : List GRNRecord) (lr : List LRRecord) (tn : List String)
    (noise : List PyVal) (nfrom nto : List String) (g : Nat) (r : AssignResult)
    (hlen : tfs.length = tn.length)
    (hnd : tfs.Nodup)
    (hstr : ∀ v ∈ tfs, v.isStr = true)
    (hrec : ∀ v ∈ lr.map LRRecord.receptor, v ∉ tfs)
    (h : assign_gene_names_og tfs rdb tmd tid grn lr tn tfs noise nfrom nto g = some r)
    (i : Nat) (hi : i < tfs.length) (hi2 : i < tn.length) :
    lookupId r.table (tfs.get ⟨i, hi⟩) = some (tn.get ⟨i, hi2⟩) := by
  obtain ⟨tp, df1, ns, g1, ls, g2, rs, g3, htp, hdf1, hns, hls, hrs, hfn, hfi,
    hlenz, htab, -, -, -, -, -⟩ :=
    assign_inversion tfs rdb tmd tid grn lr tn tfs noise nfrom nto g r h
  have hzip0 : lookupId (tfs.zip tn) (tfs.get ⟨i, hi⟩) = some (tn.get ⟨i, hi2⟩) :=
    lookupId_zip_get tfs tn hnd i hi hi2
  have htpids := target_phase_ids rdb tmd tid grn tfs tn tfs tp htp
  obtain ⟨ext, hext⟩ := target_phase_names_ext rdb tmd tid grn tfs tn tfs tp htp
  obtain ⟨hlen1, hdf1def⟩ := name_df1_stage_eq lr tp.total_id tp.total_name df1 hdf1
  have hzipsplit : tp.total_id.zip tp.total_name
      = tfs.zip tn ++ (tfs.flatMap (get_dir grn)).zip ext := by
    rw [htpids, hext]
    exact List.zip_append hlen
  have hmapseed : (tfs.zip tn).map row_astype_str = tfs.zip tn := by
    apply map_row_astype_eq_self
    intro p hp
    obtain ⟨a, b⟩ := p
    exact hstr a (List.of_mem_zip hp).1
  have hMvalue : lookupId ((tp.total_id.zip tp.total_name).map row_astype_str)
      (tfs.get ⟨i, hi⟩) = some (tn.get ⟨i, hi2⟩) := by
    rw [hzipsplit, List.map_append, hmapseed]
    exact lookupId_append_left _ _ _ _ hzip0
  have hk_notrec : (tfs.get ⟨i, hi⟩) ∉ py_dedup (lr.map LRRecord.receptor) := by
    intro hmem
    exact hrec _ ((mem_py_dedup _ _).mp hmem) (List.get_mem tfs i hi)
  have hdf1lookup : lookupId df1 (tfs.get ⟨i, hi⟩) = some (tn.get ⟨i, hi2⟩) := by
    rw [hdf1def]
    apply lookupId_filter_of_pred
    · simpa using hk_notrec
    · rw [lookupId_map_astype_dedup]
      exact hMvalue
  rw [List.append_assoc, List.append_assoc] at hfi
  rw [List.append_assoc, List.append_assoc] at hfn
  exact lookupId_final_table r df1 _ _ hfi hfn htab
    (name_df1_ids_isStr lr tp.total_id tp.total_name df1 hdf1) _ _ hdf1lookup

/-- Claim C8 witness: the TF identifier of the happy-path run keeps its
caller-supplied name in the returned table. -/
theorem C8_witness :
    lookupId W_res.table (W_tfs.get ⟨0, by decide⟩) =
      some (W_tn.get ⟨0, by decide⟩) :=
  C8_tf_passthrough W_tfs W_rdb W_tmd W_tid W_grn W_lr W_tn W_noise W_from W_to
    0 W_res (by decide) (by decide) (by decide) (by decide) (by decide)
    0 (by decide) (by decide)

/-- Claim C9: with the ambient generator state of the random module made
explicit, a run is a function of the inputs and the state, so identical
inputs and states give identical tables; and across different states the
TF and target bindings, which are fixed by the deterministic first
DataFrame, are identical: only noise, ligand and receptor names may vary. -/
theorem C9_reproducibility (tfs : List PyVal) (rdb : RDB)
    (tmd : List (String × String)) (tid : List (PyVal × String))
    (grn : List GRNRecord) (lr : List LRRecord) (tn : List String)
    (ti : List PyVal) (noise : List PyVal) (nfrom nto : List String)
    (tp : TargetPhaseOut) (df1 : List (PyVal × String)) (g1 g2 : Nat)
    (r1 r2 : AssignResult)
    (htp : target_phase rdb tmd tid grn tfs tn ti = some tp)
    (hdf1 : name_df1_stage lr tp.total_id tp.total_name = some df1)
    (h1 : assign_gene_names_og tfs rdb tmd tid grn lr tn ti noise nfrom nto g1 = some r1)
    (h2 : assign_gene_names_og tfs rdb tmd tid grn lr tn ti noise nfrom nto g2 = some r2) :
    (g1 = g2 → r1 = r2) ∧
      ∀ k ∈ df1.map Prod.fst, lookupId r1.table k = lookupId r2.table k := by
  refine ⟨?_, ?_⟩
  · intro hg
    subst hg
    rw [h1] at h2
    exact Option.some.inj h2
  · intro k hk
    obtain ⟨v, hv⟩ := lookupId_isSome_of_mem df1 k hk
    have hst := name_df1_ids_isStr lr tp.total_id tp.total_name df1 hdf1
    obtain ⟨tp1, df1a, nsa, ga, lsa, gb, rsa, gc, htp1, hdf1a, -, -, -, hfn1, hfi1,
      -, htab1, -, -, -, -, -⟩ :=
      assign_inversion tfs rdb tmd tid grn lr tn ti noise nfrom nto g1 r1 h1
    rw [htp] at htp1
    have := Option.some.inj htp1
    subst this
    rw [hdf1] at hdf1a
    have := Option.some.inj hdf1a
    subst this
    obtain ⟨tp2, df1b, nsb, gd, lsb, ge, rsb, gf, htp2, hdf1b, -, -, -, hfn2, hfi2,
      -, htab2, -, -, -, -, -⟩ :=
      assign_inversion tfs rdb tmd tid grn lr tn ti noise nfrom nto g2 r2 h2
    rw [htp] at htp2
    have := Option.some.inj htp2
    subst this
    rw [hdf1] at hdf1b
    have := Option.some.inj hdf1b
    subst this
    rw [List.append_assoc, List.append_assoc] at hfi1 hfn1 hfi2 hfn2
    have e1 := lookupId_final_table r1 df1 _ _ hfi1 hfn1 htab1 hst k v hv
    have e2 := lookupId_final_table r2 df1 _ _ hfi2 hfn2 htab2 hst k v hv
    rw [e1, e2]

/-- Claim C9 witness: two runs of the happy-path input at generator states
0 and 1; the bindings of the deterministic phase agree (shown at the
target identifier g1). -/
theorem C9_witness :
    ((0 : Nat) = 1 → W_res = W_res1) ∧
      lookupId W_res.table (PyVal.pstr "g1") =
        lookupId W_res1.table (PyVal.pstr "g1") :=
  ⟨(C9_reproducibility W_tfs W_rdb W_tmd W_tid W_grn W_lr W_tn W_ti W_noise
      W_from W_to W_tp W_df1 0 1 W_res W_res1 (by decide) (by decide)
      (by decide) (by decide)).1,
    (C9_reproducibility W_tfs W_rdb W_tmd W_tid W_grn W_lr W_tn W_ti W_noise
      W_from W_to W_tp W_df1 0 1 W_res W_res1 (by decide) (by decide)
      (by decide) (by decide)).2 (PyVal.pstr "g1") (by decide)⟩

/-- Claim C2: for string identifiers, with total_id seeded with the TF
list, the identifier set of the returned table is exactly the union of the
TF identifiers, the identifiers regulated by a listed TF, the noise
identifiers, and the ligands and receptors of the ground truth. -/
theorem C2_totality (tfs : List PyVal) (rdb : RDB)
    (tmd : List (String × String)) (tid : List (PyVal × String))
    (grn : List GRNRecord) (lr : List LRRecord) (tn : List String)
    (noise : List PyVal) (nfrom nto : List String) (g : Nat) (r : AssignResult)
    (hstr_tf : ∀ v ∈ tfs, v.isStr = true)
    (hstr_tg : ∀ q ∈ grn, q.regulated.isStr = true)
    (hstr_noise : ∀ v ∈ noise, v.isStr = true)
    (hstr_lig : ∀ q ∈ lr, q.ligand.isStr = true)
    (hstr_rec : ∀ q ∈ lr, q.receptor.isStr = true)
    (h : assign_gene_names_og tfs rdb tmd tid grn lr tn tfs noise nfrom nto g = some r)
    (x : PyVal) :
    x ∈ r.table.map Prod.fst ↔
      (x ∈ tfs ∨ (∃ q ∈ grn, q.regulator ∈ tfs ∧ q.regulated = x)
        ∨ x ∈ noise ∨ x ∈ lr.map LRRecord.ligand
        ∨ x ∈ lr.map LRRecord.receptor) := by
  obtain ⟨tp, df1, ns, g1, ls, g2, rs, g3, htp, hdf1, hns, hls, hrs, hfn, hfi,
    hlenz, htab, -, -, -, -, -⟩ :=
    assign_inversion tfs rdb tmd tid grn lr tn tfs noise nfrom nto g r h
  have htpids := target_phase_ids rdb tmd tid grn tfs tn tfs tp htp
  have htabmem : ∀ z, z ∈ r.table.map Prod.fst ↔
      ∃ y ∈ r.final_total_id, y.astype_str = z := by
    intro z
    rw [htab]
    exact mem_table_fst _ _ hlenz z
  have hfinmem : ∀ y, y ∈ r.final_total_id ↔
      (y ∈ df1.map Prod.fst ∨ y ∈ noise ∨ y ∈ lr.map LRRecord.ligand
        ∨ y ∈ lr.map LRRecord.receptor) := by
    intro y
    rw [hfi]
    simp only [List.mem_append, mem_py_dedup]
    tauto
  have hdf1mem := mem_df1_fst lr tp.total_id tp.total_name df1 hdf1
  have htpmem : ∀ y, y ∈ tp.total_id ↔
      (y ∈ tfs ∨ ∃ q ∈ grn, q.regulator ∈ tfs ∧ q.regulated = y) := by
    intro y
    rw [htpids]
    simp only [List.mem_append, List.mem_flatMap, mem_get_dir]
    constructor
    · rintro (hy | ⟨tf, htf, q, hq, hreg, rfl⟩)
      · exact Or.inl hy
      · exact Or.inr ⟨q, hq, hreg ▸ htf, rfl⟩
    · rintro (hy | ⟨q, hq, hregmem, rfl⟩)
      · exact Or.inl hy
      · exact Or.inr ⟨q.regulator, hregmem, q, hq, rfl, rfl⟩
  have hstr_tp : ∀ y ∈ tp.total_id, y.isStr = true := by
    intro y hy
    rcases (htpmem y).mp hy with hy | ⟨q, hq, -, rfl⟩
    · exact hstr_tf y hy
    · exact hstr_tg q hq
  rw [htabmem x]
  constructor
  · rintro ⟨y, hy, rfl⟩
    rcases (hfinmem y).mp hy with hdf | hn | hl | hr
    · obtain ⟨⟨z, hz, rfl⟩, -⟩ := (hdf1mem y).mp hdf
      simp only [astype_eq_self z (hstr_tp z hz)]
      rcases (htpmem z).mp hz with hz2 | hz2
      · exact Or.inl hz2
      · exact Or.inr (Or.inl hz2)
    · rw [astype_eq_self y (hstr_noise y hn)]
      exact Or.inr (Or.inr (Or.inl hn))
    · obtain ⟨q, hq, rfl⟩ := List.mem_map.mp hl
      rw [astype_eq_self _ (hstr_lig q hq)]
      exact Or.inr (Or.inr (Or.inr (Or.inl (List.mem_map_of_mem _ hq))))
    · obtain ⟨q, hq, rfl⟩ := List.mem_map.mp hr
      rw [astype_eq_self _ (hstr_rec q hq)]
      exact Or.inr (Or.inr (Or.inr (Or.inr (List.mem_map_of_mem _ hq))))
  · intro hx
    have hxstr : x.isStr = true := by
      rcases hx with h1 | ⟨q, hq, -, rfl⟩ | h1 | h1 | h1
      · exact hstr_tf x h1
      · exact hstr_tg q hq
      · exact hstr_noise x h1
      · obtain ⟨q, hq, rfl⟩ := List.mem_map.mp h1
        exact hstr_lig q hq
      · obtain ⟨q, hq, rfl⟩ := List.mem_map.mp h1
        exact hstr_rec q hq
    refine ⟨x, ?_, astype_eq_self x hxstr⟩
    rw [hfinmem x]
    by_cases hrecmem : x ∈ py_dedup (lr.map LRRecord.receptor)
    · exact Or.inr (Or.inr (Or.inr ((mem_py_dedup _ _).mp hrecmem)))
    · rcases hx with h1 | h1 | h1 | h1 | h1
      · refine Or.inl ?_
        rw [hdf1mem x]
        exact ⟨⟨x, (htpmem x).mpr (Or.inl h1), astype_eq_self x hxstr⟩, hrecmem⟩
      · refine Or.inl ?_
        rw [hdf1mem x]
        exact ⟨⟨x, (htpmem x).mpr (Or.inr h1), astype_eq_self x hxstr⟩, hrecmem⟩
      · exact Or.inr (Or.inl h1)
      · exact Or.inr (Or.inr (Or.inl h1))
      · exact absurd ((mem_py_dedup _ _).mpr h1) hrecmem

/-- Claim C2 witness: the noise identifier gene1 of the happy-path run is
in the table exactly because it is a noise identifier. -/
theorem C2_witness :
    PyVal.pstr "gene1" ∈ W_res.table.map Prod.fst ↔
      (PyVal.pstr "gene1" ∈ W_tfs
        ∨ (∃ q ∈ W_grn, q.regulator ∈ W_tfs ∧ q.regulated = PyVal.pstr "gene1")
        ∨ PyVal.pstr "gene1" ∈ W_noise
        ∨ PyVal.pstr "gene1" ∈ W_lr.map LRRecord.ligand
        ∨ PyVal.pstr "gene1" ∈ W_lr.map LRRecord.receptor) :=
  C2_totality W_tfs W_rdb W_tmd W_tid W_grn W_lr W_tn W_noise W_from W_to 0
    W_res (by decide) (by decide) (by decide) (by decide) (by decide)
    (by decide) (PyVal.pstr "gene1")

end SpaGRN
